import Mathlib

/-!
Verification of the UniSphere client-side store against its specification.

The definitions below are a shallow embedding of the application's state and
persistence model: the entity collections (courses, notes, materials), the
store mutations found in the App component (cascading course delete, note
reorder via a global-index swap, note update, deletes), the memoized course
filter, the localStorage load/save round-trip, and the AI insight adapter's
state machine.  JavaScript arrays indexed with possibly-undefined indices are
modelled with `Option`; machine timestamps are `Nat`.
-/

namespace Unisphere

open scoped List

/-- A course entity, as declared in types.ts. -/
structure Course where
  id : String
  name : String
  description : String
  color : String
  createdAt : Nat
  deriving DecidableEq

/-- A note entity, as declared in types.ts. -/
structure Note where
  id : String
  courseId : String
  title : String
  content : String
  updatedAt : Nat
  deriving DecidableEq

/-- The closed enumeration of material types in types.ts. -/
inductive MType where
  | link
  | file
  | reference
  deriving DecidableEq

/-- A material entity, as declared in types.ts; `noteId` is optional. -/
structure Material where
  id : String
  courseId : String
  noteId : Option String
  name : String
  type : MType
  url : String
  addedAt : Nat
  deriving DecidableEq

/-- The three entity collections held by the App component's state. -/
structure StoreState where
  courses : List Course
  notes : List Note
  materials : List Material
  deriving DecidableEq

/-- The process-wide theme constant assigned to every new course. -/
def THEME_COLOR : String := "bg-blue-600"

/-- Direction argument of handleMoveNote. -/
inductive Direction where
  | up
  | down
  deriving DecidableEq

/-- The ordered list of global indices whose note belongs to the selected
course, as computed by the reduce in handleMoveNote. -/
def courseNotesIndicesFrom (cid : String) : Nat → List Note → List Nat
  | _, [] => []
  | i, n :: ns =>
    if n.courseId = cid then i :: courseNotesIndicesFrom cid (i + 1) ns
    else courseNotesIndicesFrom cid (i + 1) ns

/-- The reduce in handleMoveNote, starting at global index 0. -/
def courseNotesIndices (cid : String) (notes : List Note) : List Nat :=
  courseNotesIndicesFrom cid 0 notes

/-- JavaScript array indexing with an arbitrary integer index: a negative or
out-of-range index reads as undefined (`none`). -/
def jsIndex (xs : List Nat) (i : Int) : Option Nat :=
  if 0 ≤ i then xs[i.toNat]? else none

/-- The `courseNotesIndices[relativeIndex]` read in handleMoveNote. -/
def moveGlobalIndex (cid : String) (notes : List Note) (relativeIndex : Int) :
    Option Nat :=
  jsIndex (courseNotesIndices cid notes) relativeIndex

/-- The `targetGlobalIndex` read in handleMoveNote: one within-course position
above or below `relativeIndex` depending on the direction. -/
def moveTargetIndex (cid : String) (notes : List Note) (relativeIndex : Int)
    (direction : Direction) : Option Nat :=
  match direction with
  | Direction.up => jsIndex (courseNotesIndices cid notes) (relativeIndex - 1)
  | Direction.down => jsIndex (courseNotesIndices cid notes) (relativeIndex + 1)

/-- handleMoveNote.  The result models the JavaScript array after the
destructuring swap: positions hold `some` a note, or `none` where the code
wrote `undefined`.  When `targetGlobalIndex` is undefined the handler returns
without mutating.  When `globalIndex` is undefined but the target is not, the
JavaScript swap writes `undefined` into the target slot (the write to
`newNotes[undefined]` creates a non-index property, so it has no effect on
the sequence). -/
def moveNote (cid : String) (notes : List Note) (relativeIndex : Int)
    (direction : Direction) : List (Option Note) :=
  let globalIndex := moveGlobalIndex cid notes relativeIndex
  let targetGlobalIndex := moveTargetIndex cid notes relativeIndex direction
  match targetGlobalIndex with
  | none => notes.map some
  | some t =>
    let newNotes : List (Option Note) := notes.map some
    let v1 : Option Note := newNotes[t]?.join
    match globalIndex with
    | some g =>
      let v2 : Option Note := newNotes[g]?.join
      (newNotes.set g v1).set t v2
    | none => newNotes.set t none

/-- handleDeleteCourse (after the confirmation dialog): cascading delete of a
course, its notes, and its materials. -/
def deleteCourse (s : StoreState) (id : String) : StoreState :=
  { courses := s.courses.filter fun c => c.id ≠ id
    notes := s.notes.filter fun n => n.courseId ≠ id
    materials := s.materials.filter fun m => m.courseId ≠ id }

/-- The delete-entry handler: removes the note with the given id; the
materials and courses state is not touched. -/
def deleteNote (s : StoreState) (id : String) : StoreState :=
  { s with notes := s.notes.filter fun n => n.id ≠ id }

/-- handleDeleteMaterial: removes the material with the given id. -/
def deleteMaterial (s : StoreState) (id : String) : StoreState :=
  { s with materials := s.materials.filter fun m => m.id ≠ id }

/-- The update branch of handleSaveNote (activeNote set): map over the note
sequence replacing title, content and updatedAt of the note with the active
id, leaving every other note alone. -/
def updateNote (notes : List Note) (id title content : String) (now : Nat) :
    List Note :=
  notes.map fun n =>
    if n.id = id then { n with title := title, content := content, updatedAt := now }
    else n

/-- handleAddCourse: append a new course with a generated id, the theme color
and the current timestamp. -/
def addCourse (s : StoreState) (id name description : String) (now : Nat) :
    StoreState :=
  let newCourse : Course := ⟨id, name, description, THEME_COLOR, now⟩
  { s with courses := s.courses ++ [newCourse] }

/-- The create branch of handleSaveNote (activeNote null): append a new note
for the selected course. -/
def addNote (s : StoreState) (id courseId title content : String) (now : Nat) :
    StoreState :=
  let newNote : Note := ⟨id, courseId, title, content, now⟩
  { s with notes := s.notes ++ [newNote] }

/-- handleAddMaterial: append a new material for the selected course,
optionally tied to a note. -/
def addMaterial (s : StoreState) (id courseId : String) (noteId : Option String)
    (name url : String) (type : MType) (now : Nat) : StoreState :=
  let newMaterial : Material := ⟨id, courseId, noteId, name, type, url, now⟩
  { s with materials := s.materials ++ [newMaterial] }

/-- Lower-casing of a JavaScript string, modelled character-wise. -/
def jsToLower (s : List Char) : List Char :=
  s.map Char.toLower

/-- JavaScript String.prototype.trim: strip leading and trailing whitespace. -/
def jsTrim (s : List Char) : List Char :=
  ((s.dropWhile Char.isWhitespace).reverse.dropWhile Char.isWhitespace).reverse

/-- Whether the string `s` starts with the pattern `q` (character lists). -/
def startsWithChars : List Char → List Char → Bool
  | [], _ => true
  | _ :: _, [] => false
  | q :: qs, c :: cs => q = c && startsWithChars qs cs

/-- JavaScript String.prototype.includes: `q` occurs contiguously in `s`. -/
def strIncludes (s q : List Char) : Bool :=
  match s with
  | [] => startsWithChars q []
  | _ :: s' => startsWithChars q s || strIncludes s' q

/-- The filteredCourses memo: lower-case and trim the query; an empty cleaned
query returns the collection unfiltered, otherwise keep the courses whose
lower-cased name or description includes the cleaned query. -/
def filteredCourses (courses : List Course) (searchQuery : String) :
    List Course :=
  let cleanQuery := jsTrim (jsToLower searchQuery.data)
  if cleanQuery = [] then courses
  else courses.filter fun c =>
    strIncludes (jsToLower c.name.data) cleanQuery ||
    strIncludes (jsToLower c.description.data) cleanQuery

/-! ### Persistence

The App serializes each collection with the platform JSON codec
(`JSON.stringify` / `JSON.parse`), which is external to this repository.
Modelled from the spec: "serializes each collection to text independently"
and "serialize then deserialize reproduces the same entities, field-for-field,
with order preserved" — the codec below is a concrete self-delimiting text
encoding of each collection with exactly that behavior; a blob the decoder
does not accept plays the role of a malformed JSON document (whose parse
throws). -/

/-- Encode a natural number as a self-delimiting run of marker characters. -/
def encNat (n : Nat) : List Char :=
  List.replicate n '1' ++ [';']

/-- Decode a natural number; fails on any malformed prefix. -/
def decNat : List Char → Option (Nat × List Char)
  | '1' :: cs =>
    match decNat cs with
    | some (n, r) => some (n + 1, r)
    | none => none
  | ';' :: cs => some (0, cs)
  | _ => none

/-- Encode a string as its length followed by its characters. -/
def encStr (s : String) : List Char :=
  encNat s.data.length ++ s.data

/-- Decode a string encoded by `encStr`. -/
def decStr (cs : List Char) : Option (String × List Char) :=
  match decNat cs with
  | some (n, r) => if n ≤ r.length then some (⟨r.take n⟩, r.drop n) else none
  | none => none

/-- Encode an optional string (the `noteId` field). -/
def encOptStr : Option String → List Char
  | none => ['n']
  | some s => 's' :: encStr s

/-- Decode an optional string. -/
def decOptStr : List Char → Option (Option String × List Char)
  | 'n' :: cs => some (none, cs)
  | 's' :: cs =>
    match decStr cs with
    | some (s, r) => some (some s, r)
    | none => none
  | _ => none

/-- Encode a material type tag. -/
def encMType : MType → List Char
  | MType.link => ['L']
  | MType.file => ['F']
  | MType.reference => ['R']

/-- Decode a material type tag. -/
def decMType : List Char → Option (MType × List Char)
  | 'L' :: cs => some (MType.link, cs)
  | 'F' :: cs => some (MType.file, cs)
  | 'R' :: cs => some (MType.reference, cs)
  | _ => none

/-- Encode a course field-for-field. -/
def encCourse (c : Course) : List Char :=
  encStr c.id ++ encStr c.name ++ encStr c.description ++ encStr c.color ++
    encNat c.createdAt

/-- Decode a course. -/
def decCourse (cs : List Char) : Option (Course × List Char) := do
  let (id, cs) ← decStr cs
  let (name, cs) ← decStr cs
  let (description, cs) ← decStr cs
  let (color, cs) ← decStr cs
  let (createdAt, cs) ← decNat cs
  some (⟨id, name, description, color, createdAt⟩, cs)

/-- Encode a note field-for-field. -/
def encNote (n : Note) : List Char :=
  encStr n.id ++ encStr n.courseId ++ encStr n.title ++ encStr n.content ++
    encNat n.updatedAt

/-- Decode a note. -/
def decNote (cs : List Char) : Option (Note × List Char) := do
  let (id, cs) ← decStr cs
  let (courseId, cs) ← decStr cs
  let (title, cs) ← decStr cs
  let (content, cs) ← decStr cs
  let (updatedAt, cs) ← decNat cs
  some (⟨id, courseId, title, content, updatedAt⟩, cs)

/-- Encode a material field-for-field. -/
def encMaterial (m : Material) : List Char :=
  encStr m.id ++ encStr m.courseId ++ encOptStr m.noteId ++ encStr m.name ++
    encMType m.type ++ encStr m.url ++ encNat m.addedAt

/-- Decode a material. -/
def decMaterial (cs : List Char) : Option (Material × List Char) := do
  let (id, cs) ← decStr cs
  let (courseId, cs) ← decStr cs
  let (noteId, cs) ← decOptStr cs
  let (name, cs) ← decStr cs
  let (type, cs) ← decMType cs
  let (url, cs) ← decStr cs
  let (addedAt, cs) ← decNat cs
  some (⟨id, courseId, noteId, name, type, url, addedAt⟩, cs)

/-- Encode a collection: its length followed by each element in order. -/
def encListWith (f : α → List Char) (xs : List α) : List Char :=
  encNat xs.length ++ (xs.map f).flatten

/-- Decode exactly `n` elements. -/
def decListWith (dec : List Char → Option (α × List Char)) :
    Nat → List Char → Option (List α × List Char)
  | 0, cs => some ([], cs)
  | n + 1, cs => do
    let (x, cs) ← dec cs
    let (xs, cs) ← decListWith dec n cs
    some (x :: xs, cs)

/-- Serialize a collection to one storage blob. -/
def serializeWith (f : α → List Char) (xs : List α) : String :=
  ⟨encListWith f xs⟩

/-- Parse one storage blob back into a collection; the whole blob must be
consumed, anything else is malformed. -/
def deserializeWith (dec : List Char → Option (α × List Char)) (b : String) :
    Option (List α) := do
  let (n, cs) ← decNat b.data
  let (xs, rest) ← decListWith dec n cs
  if rest = [] then some xs else none

/-- The blob written to the uni_courses key. -/
def serializeCourses (xs : List Course) : String := serializeWith encCourse xs

/-- Parse of the uni_courses blob. -/
def deserializeCourses (b : String) : Option (List Course) :=
  deserializeWith decCourse b

/-- The blob written to the uni_notes key. -/
def serializeNotes (xs : List Note) : String := serializeWith encNote xs

/-- Parse of the uni_notes blob. -/
def deserializeNotes (b : String) : Option (List Note) :=
  deserializeWith decNote b

/-- The blob written to the uni_materials key. -/
def serializeMaterials (xs : List Material) : String :=
  serializeWith encMaterial xs

/-- Parse of the uni_materials blob. -/
def deserializeMaterials (b : String) : Option (List Material) :=
  deserializeWith decMaterial b

/-- The three localStorage keys used by the App; a key that was never written
holds `none` (getItem returns null). -/
structure Storage where
  uni_courses : Option String
  uni_notes : Option String
  uni_materials : Option String
  deriving DecidableEq

/-- The save effect: every store change rewrites all three keys from the
current collections, independently and unconditionally. -/
def save (s : StoreState) : Storage :=
  { uni_courses := some (serializeCourses s.courses)
    uni_notes := some (serializeNotes s.notes)
    uni_materials := some (serializeMaterials s.materials) }

/-- One key of the load effect.  The code guards each parse with JavaScript
truthiness (`if (savedCourses)`), so both a null and an empty-string blob
leave the collection at its initial empty value; a non-empty blob is parsed,
and a parse failure (a thrown exception in the code) propagates. -/
def loadKey (dec : String → Option (List α)) (v : Option String) :
    Except Unit (List α) :=
  match v with
  | none => Except.ok []
  | some b =>
    if b = "" then Except.ok []
    else
      match dec b with
      | some xs => Except.ok xs
      | none => Except.error ()

/-- The startup load effect: read the three keys and parse each blob
independently of the others, in order; a parse failure (a thrown exception in
the code) aborts the remaining steps. -/
def load (st : Storage) : Except Unit StoreState :=
  match loadKey deserializeCourses st.uni_courses with
  | Except.error e => Except.error e
  | Except.ok cs =>
    match loadKey deserializeNotes st.uni_notes with
    | Except.error e => Except.error e
    | Except.ok ns =>
      match loadKey deserializeMaterials st.uni_materials with
      | Except.error e => Except.error e
      | Except.ok ms => Except.ok ⟨cs, ns, ms⟩

/-- Spec-side description of a successful per-key load: an absent key loads
as the empty collection, an empty blob is treated like an absent key by the
truthiness guard, and otherwise the blob must decode. -/
def KeyParsedOk (dec : String → Option (List α)) (v : Option String)
    (xs : List α) : Prop :=
  (v = none ∧ xs = []) ∨ (v = some "" ∧ xs = []) ∨
    (∃ b, v = some b ∧ b ≠ "" ∧ dec b = some xs)

/-- Spec-side description of a failing per-key load: a present, non-empty,
malformed blob. -/
def KeyParseFails (dec : String → Option (List α)) (v : Option String) : Prop :=
  ∃ b, v = some b ∧ b ≠ "" ∧ dec b = none

/-! ### AI insight adapter -/

/-- A generated study question, as produced by the questions service. -/
structure StudyQ where
  question : String
  answer : String
  deriving DecidableEq

/-- The adapter-owned component state: one shared loading flag and the two
result slots. -/
structure AIState where
  aiLoading : Bool
  aiSummary : Option String
  studyQuestions : List StudyQ
  deriving DecidableEq

/-- The discrete events of runAISummary and runAIQuestions: the synchronous
prefix of each call (start), and the resolution or rejection of the awaited
service call together with the finally block. -/
inductive AIEvent where
  | summaryStart
  | summaryResolve (result : Option String)
  | summaryReject
  | questionsStart
  | questionsResolve (result : List StudyQ)
  | questionsReject

/-- State transition of the adapter.  runAISummary sets loading and clears the
summary before awaiting; on resolution it stores the result (or the fallback
message when the service returned a falsy value) and the finally block clears
loading; on rejection only the finally block runs.  runAIQuestions is the
same shape over the questions slot.  Both share the single aiLoading flag. -/
def aiStep (s : AIState) : AIEvent → AIState
  | AIEvent.summaryStart => { s with aiLoading := true, aiSummary := none }
  | AIEvent.summaryResolve r =>
    { s with
      aiSummary := some (match r with
        | some t => if t = "" then "Failed to generate summary." else t
        | none => "Failed to generate summary.")
      aiLoading := false }
  | AIEvent.summaryReject => { s with aiLoading := false }
  | AIEvent.questionsStart => { s with aiLoading := true, studyQuestions := [] }
  | AIEvent.questionsResolve qs =>
    { s with studyQuestions := qs, aiLoading := false }
  | AIEvent.questionsReject => { s with aiLoading := false }

/-- The App state relevant to the adapter: the entity store plus the adapter
slots.  The adapter events update only the adapter slots. -/
structure AppState where
  store : StoreState
  ai : AIState
  deriving DecidableEq

/-- An adapter event applied at the App level: only the adapter state moves. -/
def aiStepApp (s : AppState) (e : AIEvent) : AppState :=
  { s with ai := aiStep s.ai e }

/-! ### Operation sequences (identifier uniqueness) -/

/-- One store operation with its inputs; add operations carry the id produced
by crypto.randomUUID() and the Date.now() timestamp as explicit data. -/
inductive Op where
  | addCourse (id name description : String) (now : Nat)
  | addNote (id courseId title content : String) (now : Nat)
  | addMaterial (id courseId : String) (noteId : Option String)
      (name url : String) (type : MType) (now : Nat)
  | updateNote (id title content : String) (now : Nat)
  | deleteCourse (id : String)
  | deleteNote (id : String)
  | deleteMaterial (id : String)
  | moveNote (cid : String) (relativeIndex : Int) (direction : Direction)

/-- Apply one operation to the store.  For moveNote, a slot the code would
leave holding `undefined` carries no entity (and no id), so the resulting
collection is the sequence of defined slots. -/
def applyOp (s : StoreState) : Op → StoreState
  | Op.addCourse id name description now => addCourse s id name description now
  | Op.addNote id courseId title content now =>
    addNote s id courseId title content now
  | Op.addMaterial id courseId noteId name url type now =>
    addMaterial s id courseId noteId name url type now
  | Op.updateNote id title content now =>
    { s with notes := updateNote s.notes id title content now }
  | Op.deleteCourse id => deleteCourse s id
  | Op.deleteNote id => deleteNote s id
  | Op.deleteMaterial id => deleteMaterial s id
  | Op.moveNote cid relativeIndex direction =>
    { s with notes := (moveNote cid s.notes relativeIndex direction).filterMap id }

/-- Apply a sequence of operations left to right. -/
def applyOps (s : StoreState) (ops : List Op) : StoreState :=
  ops.foldl applyOp s

/-- The id generated for an add operation is fresh for the current state:
the idealization of crypto.randomUUID() (the spec calls its collision
probability negligible). -/
def OpFresh (s : StoreState) : Op → Prop
  | Op.addCourse id _ _ _ => ∀ c ∈ s.courses, c.id ≠ id
  | Op.addNote id _ _ _ _ => ∀ n ∈ s.notes, n.id ≠ id
  | Op.addMaterial id _ _ _ _ _ _ => ∀ m ∈ s.materials, m.id ≠ id
  | _ => True

/-- Every operation of the sequence is fresh at the state where it runs. -/
def FreshRun : StoreState → List Op → Prop
  | _, [] => True
  | s, op :: ops => OpFresh s op ∧ FreshRun (applyOp s op) ops

/-- Invariant I2: no two entities of a collection share an id. -/
def UniqueIds (s : StoreState) : Prop :=
  (s.courses.map Course.id).Nodup ∧ (s.notes.map Note.id).Nodup ∧
    (s.materials.map Material.id).Nodup

/-- Invariant I1 (referential integrity): every note and material references
an existing course. -/
def RefIntegrity (s : StoreState) : Prop :=
  (∀ n ∈ s.notes, ∃ c ∈ s.courses, c.id = n.courseId) ∧
    (∀ m ∈ s.materials, ∃ c ∈ s.courses, c.id = m.courseId)

instance (s : StoreState) : Decidable (UniqueIds s) :=
  decidable_of_iff ((s.courses.map Course.id).Nodup ∧
    (s.notes.map Note.id).Nodup ∧ (s.materials.map Material.id).Nodup) Iff.rfl

instance (s : StoreState) : Decidable (RefIntegrity s) :=
  decidable_of_iff ((∀ n ∈ s.notes, ∃ c ∈ s.courses, c.id = n.courseId) ∧
    ∀ m ∈ s.materials, ∃ c ∈ s.courses, c.id = m.courseId) Iff.rfl

instance (s : StoreState) (op : Op) : Decidable (OpFresh s op) :=
  match op with
  | Op.addCourse id _ _ _ =>
    decidable_of_iff (∀ c ∈ s.courses, c.id ≠ id) Iff.rfl
  | Op.addNote id _ _ _ _ =>
    decidable_of_iff (∀ n ∈ s.notes, n.id ≠ id) Iff.rfl
  | Op.addMaterial id _ _ _ _ _ _ =>
    decidable_of_iff (∀ m ∈ s.materials, m.id ≠ id) Iff.rfl
  | Op.updateNote _ _ _ _ => Decidable.isTrue trivial
  | Op.deleteCourse _ => Decidable.isTrue trivial
  | Op.deleteNote _ => Decidable.isTrue trivial
  | Op.deleteMaterial _ => Decidable.isTrue trivial
  | Op.moveNote _ _ _ => Decidable.isTrue trivial

instance instDecFreshRun : (s : StoreState) → (ops : List Op) →
    Decidable (FreshRun s ops)
  | _, [] => Decidable.isTrue trivial
  | s, op :: ops =>
    haveI := instDecFreshRun (applyOp s op) ops
    decidable_of_iff (OpFresh s op ∧ FreshRun (applyOp s op) ops) Iff.rfl

/-- Description of one accepted moveNote swap: positions `a` and `b` of the
within-course index list name two distinct global slots, both holding notes
of the selected course; the move exchanges exactly those two slots and every
other slot keeps its note (so the relative order of all other notes,
including interleaved notes of other courses, is unchanged). -/
def MoveSwapSpec (cid : String) (notes : List Note) (ri : Int)
    (dir : Direction) (a b : Nat) : Prop :=
  ∃ g t,
    (courseNotesIndices cid notes)[a]? = some g ∧
    (courseNotesIndices cid notes)[b]? = some t ∧
    g ≠ t ∧
    (∀ n : Note, notes[g]? = some n → n.courseId = cid) ∧
    (∀ n : Note, notes[t]? = some n → n.courseId = cid) ∧
    (moveNote cid notes ri dir)[g]? = Option.map some notes[t]? ∧
    (moveNote cid notes ri dir)[t]? = Option.map some notes[g]? ∧
    ∀ p : Nat, p ≠ g → p ≠ t →
      (moveNote cid notes ri dir)[p]? = Option.map some notes[p]?

/-! ### Concrete entities used by the witnesses -/

/-- Witness note N1 of course A. -/
def wn1 : Note := ⟨"n1", "A", "Cell Structure", "body1", 1⟩

/-- Witness note N2 of course A. -/
def wn2 : Note := ⟨"n2", "A", "Genetics", "body2", 2⟩

/-- Witness note N3 of course A. -/
def wn3 : Note := ⟨"n3", "A", "Evolution", "body3", 3⟩

/-- Witness note of the unrelated course B. -/
def wnB : Note := ⟨"nb", "B", "Other", "bodyB", 4⟩

/-- Witness course A. -/
def wcA : Course := ⟨"A", "Biology 101", "", THEME_COLOR, 1⟩

/-- Witness course B. -/
def wcB : Course := ⟨"B", "Chemistry", "Atoms and bonds", THEME_COLOR, 2⟩

/-- Witness material attached to course A and note N1. -/
def wmA : Material := ⟨"m1", "A", some "n1", "Syllabus", MType.file, "/files/syllabus.pdf", 5⟩

/-- Witness material attached to course B. -/
def wmB : Material := ⟨"m2", "B", none, "Handbook", MType.link, "https://b", 6⟩

/-- Witness store state with two courses and their notes and materials. -/
def wState : StoreState := ⟨[wcA, wcB], [wn1, wnB, wn2, wn3], [wmA, wmB]⟩

/-! ## Helper lemmas -/

/-- Mapping `some` over a list and keeping the defined entries is the
identity. -/
theorem filterMap_id_map_some (l : List α) : (l.map some).filterMap id = l := by
  rw [List.filterMap_map]
  exact List.filterMap_some l

/-- Overwriting position `m` with `a` while prepending the old inhabitant of
position `m` permutes the list with `a` consed on. -/
theorem perm_cons_set (t : List α) (m : Nat) (a b : α) (h : t[m]? = some b) :
    b :: t.set m a ~ a :: t := by
  induction t generalizing m with
  | nil => simp at h
  | cons c t ih =>
    cases m with
    | zero =>
      simp only [List.getElem?_cons_zero, Option.some.injEq] at h
      subst h
      simpa using List.Perm.swap a c t
    | succ m =>
      simp only [List.getElem?_cons_succ] at h
      calc b :: (c :: t).set (m + 1) a = b :: c :: t.set m a := by simp
        _ ~ c :: b :: t.set m a := List.Perm.swap c b _
        _ ~ c :: a :: t := List.Perm.cons c (ih m h)
        _ ~ a :: c :: t := List.Perm.swap a c t

/-- Swapping the inhabitants of two distinct positions permutes the list. -/
theorem set_set_swap_perm (l : List α) (i j : Nat) (a b : α) (hij : i ≠ j)
    (hi : l[i]? = some a) (hj : l[j]? = some b) :
    (l.set i b).set j a ~ l := by
  induction l generalizing i j with
  | nil => simp at hi
  | cons c t ih =>
    cases i with
    | zero =>
      cases j with
      | zero => exact absurd rfl hij
      | succ m =>
        simp only [List.getElem?_cons_zero, Option.some.injEq] at hi
        simp only [List.getElem?_cons_succ] at hj
        subst hi
        simpa using perm_cons_set t m c b hj
    | succ k =>
      cases j with
      | zero =>
        simp only [List.getElem?_cons_zero, Option.some.injEq] at hj
        simp only [List.getElem?_cons_succ] at hi
        subst hj
        simpa using perm_cons_set t k c a hi
      | succ m =>
        simp only [List.getElem?_cons_succ] at hi hj
        have : (((c :: t).set (k + 1) b).set (m + 1) a) = c :: ((t.set k b).set m a) := by
          simp
        rw [this]
        exact List.Perm.cons c (ih k m (by omega) hi hj)

/-- Blanking one slot of a fully-defined sequence and keeping the defined
entries yields a subsequence of the original. -/
theorem filterMap_id_set_none (l : List α) (t : Nat) :
    ((l.map some).set t none).filterMap id <+ l := by
  induction l generalizing t with
  | nil => simp
  | cons c l ih =>
    cases t with
    | zero =>
      simp only [List.map_cons, List.set_cons_zero, List.filterMap_cons_none,
        filterMap_id_map_some, id]
      exact List.sublist_cons_self c l
    | succ m =>
      simp only [List.map_cons, List.set_cons_succ, List.filterMap_cons_some, id]
      exact (ih m).cons₂ c

/-- In a strictly increasing list, values at increasing positions increase. -/
theorem pairwise_lt_getElem? (l : List Nat) (hl : l.Pairwise (· < ·))
    (i j x y : Nat) (hx : l[i]? = some x) (hy : l[j]? = some y) (hij : i < j) :
    x < y := by
  induction l generalizing i j with
  | nil => simp at hx
  | cons c t ih =>
    obtain ⟨hc, ht⟩ := List.pairwise_cons.mp hl
    cases j with
    | zero => omega
    | succ m =>
      simp only [List.getElem?_cons_succ] at hy
      cases i with
      | zero =>
        simp only [List.getElem?_cons_zero, Option.some.injEq] at hx
        subst hx
        exact hc y (List.getElem?_mem hy)
      | succ k =>
        simp only [List.getElem?_cons_succ] at hx
        exact ih ht k m hx hy (by omega)

/-- A member of the course-note index list points at a note of the course. -/
theorem courseNotesIndicesFrom_mem (cid : String) (l : List Note) (k g : Nat)
    (h : g ∈ courseNotesIndicesFrom cid k l) :
    k ≤ g ∧ ∃ n, l[g - k]? = some n ∧ n.courseId = cid := by
  induction l generalizing k with
  | nil => simp [courseNotesIndicesFrom] at h
  | cons n ns ih =>
    by_cases hc : n.courseId = cid
    · rw [courseNotesIndicesFrom, if_pos hc] at h
      rcases List.mem_cons.mp h with rfl | h'
      · exact ⟨Nat.le_refl _, n, by simp, hc⟩
      · obtain ⟨hk, n', hn', hcid⟩ := ih (k + 1) h'
        refine ⟨by omega, n', ?_, hcid⟩
        have hgk : g - k = (g - (k + 1)) + 1 := by omega
        rw [hgk, List.getElem?_cons_succ]
        exact hn'
    · rw [courseNotesIndicesFrom, if_neg hc] at h
      obtain ⟨hk, n', hn', hcid⟩ := ih (k + 1) h
      refine ⟨by omega, n', ?_, hcid⟩
      have hgk : g - k = (g - (k + 1)) + 1 := by omega
      rw [hgk, List.getElem?_cons_succ]
      exact hn'

/-- The course-note index list is strictly increasing. -/
theorem courseNotesIndicesFrom_pairwise (cid : String) (l : List Note) (k : Nat) :
    (courseNotesIndicesFrom cid k l).Pairwise (· < ·) := by
  induction l generalizing k with
  | nil => simp [courseNotesIndicesFrom]
  | cons n ns ih =>
    by_cases hc : n.courseId = cid
    · rw [courseNotesIndicesFrom, if_pos hc]
      refine List.Pairwise.cons ?_ (ih (k + 1))
      intro g hg
      have := (courseNotesIndicesFrom_mem cid ns (k + 1) g hg).1
      omega
    · rw [courseNotesIndicesFrom, if_neg hc]
      exact ih (k + 1)

/-- Global indices collected for a course point at notes of that course. -/
theorem courseNotesIndices_entity (cid : String) (notes : List Note) (g : Nat)
    (h : g ∈ courseNotesIndices cid notes) :
    ∃ n, notes[g]? = some n ∧ n.courseId = cid := by
  obtain ⟨-, n, hn, hc⟩ := courseNotesIndicesFrom_mem cid notes 0 g h
  exact ⟨n, by simpa using hn, hc⟩

/-- The course-note index list is strictly increasing (top level). -/
theorem courseNotesIndices_pairwise (cid : String) (notes : List Note) :
    (courseNotesIndices cid notes).Pairwise (· < ·) :=
  courseNotesIndicesFrom_pairwise cid notes 0

/-- Characterization of a defined JavaScript index read. -/
theorem jsIndex_eq_some {xs : List Nat} {i : Int} {v : Nat} :
    jsIndex xs i = some v ↔ 0 ≤ i ∧ xs[i.toNat]? = some v := by
  unfold jsIndex
  split <;> simp_all

/-- A defined global index points at a note of the selected course. -/
theorem moveGlobalIndex_entity {cid : String} {notes : List Note} {ri : Int}
    {g : Nat} (h : moveGlobalIndex cid notes ri = some g) :
    ∃ n, notes[g]? = some n ∧ n.courseId = cid := by
  obtain ⟨-, h2⟩ := jsIndex_eq_some.mp h
  exact courseNotesIndices_entity _ _ _ (List.getElem?_mem h2)

/-- A defined target index points at a note of the selected course. -/
theorem moveTargetIndex_entity {cid : String} {notes : List Note} {ri : Int}
    {dir : Direction} {t : Nat} (h : moveTargetIndex cid notes ri dir = some t) :
    ∃ n, notes[t]? = some n ∧ n.courseId = cid := by
  cases dir <;>
    · obtain ⟨-, h2⟩ := jsIndex_eq_some.mp h
      exact courseNotesIndices_entity _ _ _ (List.getElem?_mem h2)

/-- When both indices of the swap are defined they are distinct. -/
theorem moveIndexes_ne {cid : String} {notes : List Note} {ri : Int}
    {dir : Direction} {g t : Nat}
    (hg : moveGlobalIndex cid notes ri = some g)
    (ht : moveTargetIndex cid notes ri dir = some t) : g ≠ t := by
  obtain ⟨hri, hg2⟩ := jsIndex_eq_some.mp hg
  cases dir with
  | up =>
    obtain ⟨hri2, ht2⟩ := jsIndex_eq_some.mp ht
    have hlt : (ri - 1).toNat < ri.toNat := by omega
    have := pairwise_lt_getElem? _ (courseNotesIndices_pairwise cid notes)
      _ _ _ _ ht2 hg2 hlt
    omega
  | down =>
    obtain ⟨hri2, ht2⟩ := jsIndex_eq_some.mp ht
    have hlt : ri.toNat < (ri + 1).toNat := by omega
    have := pairwise_lt_getElem? _ (courseNotesIndices_pairwise cid notes)
      _ _ _ _ hg2 ht2 hlt
    omega

/-- moveNote with an undefined target index leaves the sequence alone. -/
theorem moveNote_target_none {cid : String} {notes : List Note} {ri : Int}
    {dir : Direction} (h : moveTargetIndex cid notes ri dir = none) :
    moveNote cid notes ri dir = notes.map some := by
  simp [moveNote, h]

/-- moveNote with a defined target but undefined global index blanks the
target slot. -/
theorem moveNote_global_none {cid : String} {notes : List Note} {ri : Int}
    {dir : Direction} {t : Nat}
    (hg : moveGlobalIndex cid notes ri = none)
    (ht : moveTargetIndex cid notes ri dir = some t) :
    moveNote cid notes ri dir = (notes.map some).set t none := by
  simp [moveNote, hg, ht]

/-- moveNote with both indices defined swaps the two inhabitants. -/
theorem moveNote_swap_eq {cid : String} {notes : List Note} {ri : Int}
    {dir : Direction} {g t : Nat} {ng nt : Note}
    (hg : moveGlobalIndex cid notes ri = some g)
    (ht : moveTargetIndex cid notes ri dir = some t)
    (hng : notes[g]? = some ng) (hnt : notes[t]? = some nt) :
    moveNote cid notes ri dir = ((notes.set g nt).set t ng).map some := by
  simp only [moveNote, hg, ht]
  rw [List.getElem?_map, List.getElem?_map, hng, hnt]
  simp [List.map_set]

/-- Both swap slots defined and located makes the swap description hold. -/
theorem moveSwapSpec_of_indices {cid : String} {notes : List Note} {ri : Int}
    {dir : Direction} {a b g t : Nat}
    (hg : moveGlobalIndex cid notes ri = some g)
    (ht : moveTargetIndex cid notes ri dir = some t)
    (hg2 : (courseNotesIndices cid notes)[a]? = some g)
    (ht2 : (courseNotesIndices cid notes)[b]? = some t) :
    MoveSwapSpec cid notes ri dir a b := by
  have hne := moveIndexes_ne hg ht
  obtain ⟨ng, hng, hngc⟩ := moveGlobalIndex_entity hg
  obtain ⟨nt, hnt, hntc⟩ := moveTargetIndex_entity ht
  obtain ⟨hglt, -⟩ := List.getElem?_eq_some_iff.mp hng
  obtain ⟨htlt, -⟩ := List.getElem?_eq_some_iff.mp hnt
  have heq := moveNote_swap_eq hg ht hng hnt
  refine ⟨g, t, hg2, ht2, hne, ?_, ?_, ?_, ?_, ?_⟩
  · intro n h
    have hh := hng.symm.trans h
    injection hh with hh
    subst hh
    exact hngc
  · intro n h
    have hh := hnt.symm.trans h
    injection hh with hh
    subst hh
    exact hntc
  · rw [heq, List.getElem?_map, List.getElem?_set_ne (Ne.symm hne),
      List.getElem?_set_self hglt, hnt]
  · rw [heq, List.getElem?_map, List.getElem?_set_self (by simpa using htlt),
      hng]
  · intro p hpg hpt
    rw [heq, List.getElem?_map, List.getElem?_set_ne (Ne.symm hpt),
      List.getElem?_set_ne (Ne.symm hpg)]

/-! ## Claim theorems -/

/-- C1: deleteCourse removes the course with the given id, every note of that
course, and every material of that course, leaving every other course, note
and material unchanged and in order; on a referentially intact store with no
course carrying the id it is a no-op on all three collections. -/
theorem deleteCourse_cascade (s : StoreState) (id : String) :
    (∀ c ∈ (deleteCourse s id).courses, c.id ≠ id) ∧
    (∀ n ∈ (deleteCourse s id).notes, n.courseId ≠ id) ∧
    (∀ m ∈ (deleteCourse s id).materials, m.courseId ≠ id) ∧
    (deleteCourse s id).courses <+ s.courses ∧
    (deleteCourse s id).notes <+ s.notes ∧
    (deleteCourse s id).materials <+ s.materials ∧
    (∀ c ∈ s.courses, c.id ≠ id → c ∈ (deleteCourse s id).courses) ∧
    (∀ n ∈ s.notes, n.courseId ≠ id → n ∈ (deleteCourse s id).notes) ∧
    (∀ m ∈ s.materials, m.courseId ≠ id → m ∈ (deleteCourse s id).materials) ∧
    (RefIntegrity s → (∀ c ∈ s.courses, c.id ≠ id) → deleteCourse s id = s) := by
  obtain ⟨cs, ns, ms⟩ := s
  refine ⟨?_, ?_, ?_, List.filter_sublist _, List.filter_sublist _,
    List.filter_sublist _, ?_, ?_, ?_, ?_⟩
  · intro c hc
    simpa [deleteCourse] using (List.mem_filter.mp hc).2
  · intro n hn
    simpa [deleteCourse] using (List.mem_filter.mp hn).2
  · intro m hm
    simpa [deleteCourse] using (List.mem_filter.mp hm).2
  · intro c hc hne
    simp [deleteCourse, List.mem_filter, hc, hne]
  · intro n hn hne
    simp [deleteCourse, List.mem_filter, hn, hne]
  · intro m hm hne
    simp [deleteCourse, List.mem_filter, hm, hne]
  · rintro ⟨hints, hintm⟩ hnone
    have hns : ∀ n ∈ ns, n.courseId ≠ id := by
      intro n hn
      obtain ⟨c, hc, hcid⟩ := hints n hn
      exact hcid ▸ hnone c hc
    have hms : ∀ m ∈ ms, m.courseId ≠ id := by
      intro m hm
      obtain ⟨c, hc, hcid⟩ := hintm m hm
      exact hcid ▸ hnone c hc
    simp only [deleteCourse, StoreState.mk.injEq]
    exact ⟨List.filter_eq_self.mpr fun c hc => by simpa using hnone c hc,
      List.filter_eq_self.mpr fun n hn => by simpa using hns n hn,
      List.filter_eq_self.mpr fun m hm => by simpa using hms m hm⟩

/-- C1 witness: deleting course A from the two-course store removes A, its
notes and its materials and keeps course B's content; deleting an id that no
course carries is a no-op. -/
theorem deleteCourse_cascade_witness :
    deleteCourse wState "A" = ⟨[wcB], [wnB], [wmB]⟩ ∧
      deleteCourse wState "Z" = wState :=
  ⟨by decide,
    (deleteCourse_cascade wState "Z").2.2.2.2.2.2.2.2.2 ⟨by decide, by decide⟩
      (by decide)⟩

/-- C8: updateNote replaces title, content and updatedAt of the note carrying
the id, in place (same position, same id and courseId), leaves every other
note unchanged, and is a no-op when no note carries the id. -/
theorem updateNote_spec (notes : List Note) (id title content : String)
    (now : Nat) :
    (updateNote notes id title content now).length = notes.length ∧
    (∀ (i : Nat) (n : Note), notes[i]? = some n → n.id ≠ id →
      (updateNote notes id title content now)[i]? = some n) ∧
    (∀ (i : Nat) (n : Note), notes[i]? = some n → n.id = id →
      (updateNote notes id title content now)[i]? =
        some { n with title := title, content := content, updatedAt := now }) ∧
    ((∀ n ∈ notes, n.id ≠ id) → updateNote notes id title content now = notes) := by
  refine ⟨by simp [updateNote], ?_, ?_, ?_⟩
  · intro i n h hne
    rw [updateNote, List.getElem?_map, h]
    simp [hne]
  · intro i n h he
    rw [updateNote, List.getElem?_map, h]
    simp [he]
  · intro h
    conv_rhs => rw [← List.map_id notes]
    exact List.map_congr_left fun n hn => by simp [h n hn]

/-- C8 witness: updating note n2 rewrites its title, content and timestamp in
place and keeps n1; updating an absent id changes nothing. -/
theorem updateNote_spec_witness :
    (updateNote [wn1, wn2] "n2" "T" "C" 9)[1]? =
        some ⟨"n2", "A", "T", "C", 9⟩ ∧
      (updateNote [wn1, wn2] "n2" "T" "C" 9)[0]? = some wn1 ∧
      updateNote [wn1, wn2] "zz" "T" "C" 9 = [wn1, wn2] := by
  refine ⟨?_, ?_, ?_⟩
  · exact (updateNote_spec [wn1, wn2] "n2" "T" "C" 9).2.2.1 1 wn2
      (by decide) (by decide)
  · exact (updateNote_spec [wn1, wn2] "n2" "T" "C" 9).2.1 0 wn1
      (by decide) (by decide)
  · exact (updateNote_spec [wn1, wn2] "zz" "T" "C" 9).2.2.2 (by decide)

/-- C9: deleteNote removes exactly the note carrying the id, keeps the
remaining notes in order, and leaves the material and course collections
entirely unchanged (no cascade to materials). -/
theorem deleteNote_frame (s : StoreState) (id : String) :
    (deleteNote s id).materials = s.materials ∧
    (deleteNote s id).courses = s.courses ∧
    (deleteNote s id).notes <+ s.notes ∧
    (∀ n, n ∈ (deleteNote s id).notes ↔ n ∈ s.notes ∧ n.id ≠ id) := by
  refine ⟨rfl, rfl, List.filter_sublist _, ?_⟩
  intro n
  simp [deleteNote]

/-- C9 witness: deleting note n1 keeps the material that references n1 via
noteId, drops n1, and keeps the unrelated note. -/
theorem deleteNote_frame_witness :
    (deleteNote wState "n1").materials = [wmA, wmB] ∧
      wn1 ∉ (deleteNote wState "n1").notes ∧
      wnB ∈ (deleteNote wState "n1").notes := by
  refine ⟨(deleteNote_frame wState "n1").1, fun h => ?_, ?_⟩
  · exact absurd rfl (((deleteNote_frame wState "n1").2.2.2 wn1).mp h).2
  · exact ((deleteNote_frame wState "n1").2.2.2 wnB).mpr ⟨by decide, by decide⟩

/-- C2: for a valid within-course position, moveNote is a no-op on the first
note moved up and on the last note moved down, and otherwise swaps exactly
the two course notes at within-course positions relativeIndex and
relativeIndex minus or plus one, leaving every other global slot unchanged. -/
theorem moveNote_adjacent_swap (cid : String) (notes : List Note) (ri : Nat)
    (hri : ri < (courseNotesIndices cid notes).length) :
    (ri = 0 → moveNote cid notes ri Direction.up = notes.map some) ∧
    ((courseNotesIndices cid notes).length = ri + 1 →
      moveNote cid notes ri Direction.down = notes.map some) ∧
    (0 < ri → MoveSwapSpec cid notes ri Direction.up ri (ri - 1)) ∧
    (ri + 1 < (courseNotesIndices cid notes).length →
      MoveSwapSpec cid notes ri Direction.down ri (ri + 1)) := by
  refine ⟨?_, ?_, ?_, ?_⟩
  · rintro rfl
    apply moveNote_target_none
    unfold moveTargetIndex jsIndex
    norm_num
  · intro hlen
    apply moveNote_target_none
    unfold moveTargetIndex jsIndex
    have hge : (0 : Int) ≤ (ri : Int) + 1 := by omega
    rw [if_pos hge]
    rw [show ((ri : Int) + 1).toNat = ri + 1 from by omega]
    exact List.getElem?_eq_none (by omega)
  · intro hpos
    obtain ⟨g, hg2⟩ : ∃ g, (courseNotesIndices cid notes)[ri]? = some g :=
      ⟨_, List.getElem?_eq_getElem hri⟩
    obtain ⟨t, ht2⟩ : ∃ t, (courseNotesIndices cid notes)[ri - 1]? = some t :=
      ⟨_, List.getElem?_eq_getElem (by omega)⟩
    refine moveSwapSpec_of_indices ?_ ?_ hg2 ht2
    · exact jsIndex_eq_some.mpr ⟨by omega, by simpa using hg2⟩
    · unfold moveTargetIndex
      exact jsIndex_eq_some.mpr ⟨by omega,
        by rw [show ((ri : Int) - 1).toNat = ri - 1 from by omega]; exact ht2⟩
  · intro hlt
    obtain ⟨g, hg2⟩ : ∃ g, (courseNotesIndices cid notes)[ri]? = some g :=
      ⟨_, List.getElem?_eq_getElem hri⟩
    obtain ⟨t, ht2⟩ : ∃ t, (courseNotesIndices cid notes)[ri + 1]? = some t :=
      ⟨_, List.getElem?_eq_getElem hlt⟩
    refine moveSwapSpec_of_indices ?_ ?_ hg2 ht2
    · exact jsIndex_eq_some.mpr ⟨by omega, by simpa using hg2⟩
    · unfold moveTargetIndex
      exact jsIndex_eq_some.mpr ⟨by omega,
        by rw [show ((ri : Int) + 1).toNat = ri + 1 from by omega]; exact ht2⟩

/-- C2 witness: the P6 scenario — three notes of course A; moving the third
one up (within-course position 2) swaps it with the second, producing the
order N1, N3, N2; moving the first one up is a no-op. -/
theorem moveNote_adjacent_swap_witness :
    MoveSwapSpec "A" [wn1, wn2, wn3] 2 Direction.up 2 1 ∧
      moveNote "A" [wn1, wn2, wn3] 2 Direction.up =
        [some wn1, some wn3, some wn2] ∧
      moveNote "A" [wn1, wn2, wn3] 0 Direction.up = [wn1, wn2, wn3].map some :=
  ⟨(moveNote_adjacent_swap "A" [wn1, wn2, wn3] 2 (by decide)).2.2.1 (by decide),
    by decide,
    (moveNote_adjacent_swap "A" [wn1, wn2, wn3] 0 (by decide)).1 rfl⟩

/-- C3 counterexample: with a single note of course A and an out-of-range
relativeIndex of 1 moved up, the target index is defined (position 0) while
the global index is undefined, so the code overwrites slot 0 with undefined
and drops the note — the resulting sequence holds a missing entry, refuting
the claim that moveNote never produces one and always keeps all note
values. -/
theorem moveNote_out_of_range_cex :
    moveNote "A" [wn1] 1 Direction.up = [none] := by decide

/-- C3 amended: whenever the within-course read at relativeIndex is defined —
or the target read is undefined, making the call a no-op — moveNote returns
a fully defined sequence holding exactly the original note values, either
unchanged or with the inhabitants of two slots swapped.  (The remaining
inputs, relativeIndex = count with direction up or relativeIndex = -1 with
direction down on a nonempty course, instead blank one slot and lose a
note.) -/
theorem moveNote_safe (cid : String) (notes : List Note) (ri : Int)
    (dir : Direction)
    (h : (moveGlobalIndex cid notes ri).isSome = true ∨
      moveTargetIndex cid notes ri dir = none) :
    ∃ notes' : List Note,
      moveNote cid notes ri dir = notes'.map some ∧
      notes' ~ notes ∧
      (notes' = notes ∨ ∃ g t ng nt, g ≠ t ∧ notes[g]? = some ng ∧
        notes[t]? = some nt ∧ notes' = (notes.set g nt).set t ng) := by
  cases hT : moveTargetIndex cid notes ri dir with
  | none =>
    exact ⟨notes, moveNote_target_none hT, List.Perm.refl _, Or.inl rfl⟩
  | some t =>
    rcases h with h | h
    · obtain ⟨g, hg⟩ := Option.isSome_iff_exists.mp h
      obtain ⟨ng, hng, -⟩ := moveGlobalIndex_entity hg
      obtain ⟨nt, hnt, -⟩ := moveTargetIndex_entity hT
      have hne := moveIndexes_ne hg hT
      exact ⟨(notes.set g nt).set t ng, moveNote_swap_eq hg hT hng hnt,
        set_set_swap_perm notes g t ng nt hne hng hnt,
        Or.inr ⟨g, t, ng, nt, hne, hng, hnt, rfl⟩⟩
    · rw [h] at hT
      cases hT

/-- C3 witness: an in-range move on the three-note course keeps exactly the
original notes with two of them swapped. -/
theorem moveNote_safe_witness :
    ∃ notes' : List Note,
      moveNote "A" [wn1, wn2, wn3] 1 Direction.up = notes'.map some ∧
      notes' ~ [wn1, wn2, wn3] ∧
      (notes' = [wn1, wn2, wn3] ∨ ∃ g t ng nt, g ≠ t ∧
        [wn1, wn2, wn3][g]? = some ng ∧ [wn1, wn2, wn3][t]? = some nt ∧
        notes' = ([wn1, wn2, wn3].set g nt).set t ng) :=
  moveNote_safe "A" [wn1, wn2, wn3] 1 Direction.up (Or.inl (by decide))

/-- A whitespace character is unchanged by lower-casing. -/
theorem toLower_of_whitespace {c : Char} (h : c.isWhitespace = true) :
    c.toLower = c := by
  simp only [Char.isWhitespace, Bool.or_eq_true, decide_eq_true_eq] at h
  rcases h with ((h | h) | h) | h <;> subst h <;> decide

/-- Lower-casing keeps a whitespace-only string whitespace-only. -/
theorem jsToLower_whitespace {s : List Char}
    (h : ∀ c ∈ s, c.isWhitespace = true) :
    ∀ c ∈ jsToLower s, c.isWhitespace = true := by
  intro c hc
  obtain ⟨d, hd, rfl⟩ := List.mem_map.mp hc
  rw [toLower_of_whitespace (h d hd)]
  exact h d hd

/-- Trimming a whitespace-only string yields the empty string. -/
theorem jsTrim_eq_nil_of_whitespace {s : List Char}
    (h : ∀ c ∈ s, c.isWhitespace = true) : jsTrim s = [] := by
  unfold jsTrim
  rw [List.dropWhile_eq_nil_iff.mpr h]
  simp

/-- startsWithChars holds exactly when the pattern is a prefix. -/
theorem startsWithChars_iff : ∀ (q s : List Char),
    startsWithChars q s = true ↔ ∃ r, s = q ++ r
  | [], s => by simp [startsWithChars]
  | a :: qs, [] => by simp [startsWithChars]
  | a :: qs, c :: cs => by
    rw [startsWithChars]
    simp only [Bool.and_eq_true, decide_eq_true_eq]
    rw [startsWithChars_iff qs cs]
    constructor
    · rintro ⟨rfl, r, rfl⟩
      exact ⟨r, rfl⟩
    · rintro ⟨r, hr⟩
      injection hr with h1 h2
      exact ⟨h1.symm, r, h2⟩

/-- strIncludes holds exactly when the pattern occurs contiguously. -/
theorem strIncludes_iff : ∀ (s q : List Char),
    strIncludes s q = true ↔ ∃ l r, s = l ++ q ++ r
  | [], q => by
    rw [strIncludes, startsWithChars_iff]
    constructor
    · rintro ⟨r, hr⟩
      obtain ⟨hq, hrr⟩ := List.append_eq_nil.mp hr.symm
      exact ⟨[], [], by simp [hq, hrr]⟩
    · rintro ⟨l, r, hr⟩
      obtain ⟨hl, hq, hrr⟩ : l = [] ∧ q = [] ∧ r = [] := by
        have h1 := List.append_eq_nil.mp hr.symm
        have h2 := List.append_eq_nil.mp h1.1
        exact ⟨h2.1, h2.2, h1.2⟩
      exact ⟨[], by simp [hq]⟩
  | c :: s', q => by
    rw [strIncludes]
    simp only [Bool.or_eq_true]
    rw [startsWithChars_iff, strIncludes_iff s' q]
    constructor
    · rintro (⟨r, hr⟩ | ⟨l, r, hr⟩)
      · exact ⟨[], r, by simpa using hr⟩
      · exact ⟨c :: l, r, by simp [hr]⟩
    · rintro ⟨l, r, hr⟩
      cases l with
      | nil => exact Or.inl ⟨r, by simpa using hr⟩
      | cons x l =>
        injection hr with h1 h2
        exact Or.inr ⟨l, r, h2⟩

/-- C7: filteredCourses returns a subsequence of the course collection (no
re-sorting, no mutation); a whitespace-only or empty query returns the whole
collection; otherwise membership is exactly case-insensitive containment of
the cleaned query in the name or the description. -/
theorem filteredCourses_spec (courses : List Course) (searchQuery : String) :
    filteredCourses courses searchQuery <+ courses ∧
    ((∀ c ∈ searchQuery.data, c.isWhitespace = true) →
      filteredCourses courses searchQuery = courses) ∧
    (jsTrim (jsToLower searchQuery.data) ≠ [] →
      ∀ c : Course, c ∈ filteredCourses courses searchQuery ↔
        c ∈ courses ∧
          ((∃ l r, jsToLower c.name.data =
              l ++ jsTrim (jsToLower searchQuery.data) ++ r) ∨
            ∃ l r, jsToLower c.description.data =
              l ++ jsTrim (jsToLower searchQuery.data) ++ r)) := by
  refine ⟨?_, ?_, ?_⟩
  · simp only [filteredCourses]
    split
    · exact List.Sublist.refl _
    · exact List.filter_sublist _
  · intro hw
    have hnil : jsTrim (jsToLower searchQuery.data) = [] :=
      jsTrim_eq_nil_of_whitespace (jsToLower_whitespace hw)
    simp [filteredCourses, hnil]
  · intro hne c
    simp only [filteredCourses]
    rw [if_neg hne]
    simp [List.mem_filter, strIncludes_iff]

/-- C7 witness: a whitespace query returns both courses unfiltered and in
order; the query BIO case-insensitively selects Biology 101. -/
theorem filteredCourses_spec_witness :
    filteredCourses [wcA, wcB] "   " = [wcA, wcB] ∧
      wcA ∈ filteredCourses [wcA, wcB] "BIO" := by
  constructor
  · exact (filteredCourses_spec [wcA, wcB] "   ").2.1 (by decide)
  · exact ((filteredCourses_spec [wcA, wcB] "BIO").2.2 (by decide) wcA).mpr
      ⟨by decide, Or.inl ⟨[], "logy 101".data, by decide⟩⟩

/-- C10 counterexample: start both calls (the shared flag goes to true), then
let the questions call fail while the summary call is still pending (no
summary completion event has been delivered): the single shared aiLoading
flag is cleared to false, so the pending summary call's loading lifecycle is
corrupted by the other call's failure — the two calls do not keep
independent loading lifecycles. -/
theorem ai_shared_loading_cex :
    (aiStep (aiStep ⟨false, none, []⟩ AIEvent.summaryStart)
        AIEvent.questionsStart).aiLoading = true ∧
      (aiStep (aiStep (aiStep ⟨false, none, []⟩ AIEvent.summaryStart)
          AIEvent.questionsStart) AIEvent.questionsReject).aiLoading = false :=
  ⟨rfl, rfl⟩

/-- C10 amended: the two result slots are independent — each start clears its
own result immediately (before any resolution) and leaves the other slot
alone, and resolution or rejection of either call never changes the other
call's result slot; no adapter event touches the entity store.  The loading
lifecycle, however, is one shared flag, which completion or failure of
either call clears. -/
theorem aiStep_slots (s : AIState) (a : AppState) (r : Option String)
    (qs : List StudyQ) (e : AIEvent) :
    (aiStep s AIEvent.summaryStart).aiSummary = none ∧
    (aiStep s AIEvent.summaryStart).aiLoading = true ∧
    (aiStep s AIEvent.summaryStart).studyQuestions = s.studyQuestions ∧
    (aiStep s AIEvent.questionsStart).studyQuestions = [] ∧
    (aiStep s AIEvent.questionsStart).aiLoading = true ∧
    (aiStep s AIEvent.questionsStart).aiSummary = s.aiSummary ∧
    (aiStep s AIEvent.questionsReject).aiSummary = s.aiSummary ∧
    (aiStep s AIEvent.questionsReject).studyQuestions = s.studyQuestions ∧
    (aiStep s AIEvent.summaryReject).aiSummary = s.aiSummary ∧
    (aiStep s AIEvent.summaryReject).studyQuestions = s.studyQuestions ∧
    (aiStep s (AIEvent.summaryResolve r)).studyQuestions = s.studyQuestions ∧
    (aiStep s (AIEvent.questionsResolve qs)).aiSummary = s.aiSummary ∧
    (aiStep s AIEvent.summaryReject).aiLoading = false ∧
    (aiStep s AIEvent.questionsReject).aiLoading = false ∧
    (aiStepApp a e).store = a.store :=
  ⟨rfl, rfl, rfl, rfl, rfl, rfl, rfl, rfl, rfl, rfl, rfl, rfl, rfl, rfl, rfl⟩

/-! ### Persistence round-trip lemmas -/

/-- Decoding inverts the natural-number encoding. -/
theorem decNat_enc (n : Nat) (rest : List Char) :
    decNat (encNat n ++ rest) = some (n, rest) := by
  induction n with
  | zero => simp [encNat, decNat]
  | succ n ih =>
    have hcons : encNat (n + 1) ++ rest = '1' :: (encNat n ++ rest) := by
      simp [encNat, List.replicate_succ]
    rw [hcons, decNat, ih]

/-- Decoding inverts the string encoding. -/
theorem decStr_enc (s : String) (rest : List Char) :
    decStr (encStr s ++ rest) = some (s, rest) := by
  rw [encStr]
  simp only [List.append_assoc]
  rw [decStr, decNat_enc]
  show (if s.data.length ≤ (s.data ++ rest).length then
      some (⟨(s.data ++ rest).take s.data.length⟩, (s.data ++ rest).drop s.data.length)
    else none) = some (s, rest)
  rw [if_pos (by simp), List.take_left, List.drop_left]

/-- Decoding inverts the optional-string encoding. -/
theorem decOptStr_enc (o : Option String) (rest : List Char) :
    decOptStr (encOptStr o ++ rest) = some (o, rest) := by
  cases o with
  | none => rfl
  | some s =>
    show decOptStr ('s' :: (encStr s ++ rest)) = some (some s, rest)
    rw [decOptStr, decStr_enc]

/-- Decoding inverts the material-type encoding. -/
theorem decMType_enc (t : MType) (rest : List Char) :
    decMType (encMType t ++ rest) = some (t, rest) := by
  cases t <;> rfl

/-- Decoding inverts the course encoding. -/
theorem decCourse_enc (c : Course) (rest : List Char) :
    decCourse (encCourse c ++ rest) = some (c, rest) := by
  obtain ⟨id, name, description, color, createdAt⟩ := c
  rw [encCourse]
  simp [decCourse, List.append_assoc, decStr_enc, decNat_enc]

/-- Decoding inverts the note encoding. -/
theorem decNote_enc (n : Note) (rest : List Char) :
    decNote (encNote n ++ rest) = some (n, rest) := by
  obtain ⟨id, courseId, title, content, updatedAt⟩ := n
  rw [encNote]
  simp [decNote, List.append_assoc, decStr_enc, decNat_enc]

/-- Decoding inverts the material encoding. -/
theorem decMaterial_enc (m : Material) (rest : List Char) :
    decMaterial (encMaterial m ++ rest) = some (m, rest) := by
  obtain ⟨id, courseId, noteId, name, type, url, addedAt⟩ := m
  rw [encMaterial]
  simp [decMaterial, List.append_assoc, decStr_enc, decNat_enc, decOptStr_enc,
    decMType_enc]

/-- Decoding inverts the element-wise collection encoding. -/
theorem decListWith_enc (dec : List Char → Option (α × List Char))
    (f : α → List Char)
    (hdec : ∀ (x : α) (rest : List Char), dec (f x ++ rest) = some (x, rest)) :
    ∀ (xs : List α) (rest : List Char),
      decListWith dec xs.length ((xs.map f).flatten ++ rest) = some (xs, rest)
  | [], rest => by simp [decListWith]
  | x :: xs, rest => by
    simp only [List.map_cons, List.flatten_cons, List.length_cons,
      List.append_assoc]
    rw [decListWith]
    simp [hdec, decListWith_enc dec f hdec xs rest]

/-- Deserialization inverts serialization for any element codec that
round-trips. -/
theorem deserialize_serialize (dec : List Char → Option (α × List Char))
    (f : α → List Char)
    (hdec : ∀ (x : α) (rest : List Char), dec (f x ++ rest) = some (x, rest))
    (xs : List α) : deserializeWith dec (serializeWith f xs) = some xs := by
  rw [serializeWith, deserializeWith]
  show (do
    let (n, cs) ← decNat (encListWith f xs)
    let (ys, rest) ← decListWith dec n cs
    if rest = [] then some ys else none) = some xs
  rw [encListWith, decNat_enc]
  have h2 : decListWith dec xs.length (xs.map f).flatten = some (xs, []) := by
    have := decListWith_enc dec f hdec xs []
    simpa using this
  simp [h2]

/-- A serialized blob is never the empty string (so the truthiness guard in
the load path never confuses it with an absent key). -/
theorem serializeWith_ne_empty (f : α → List Char) (xs : List α) :
    serializeWith f xs ≠ "" := by
  intro h
  have hd : encListWith f xs = ("" : String).data := congrArg String.data h
  have hnil : ("" : String).data = [] := rfl
  rw [hnil, encListWith, encNat] at hd
  rcases List.append_eq_nil.mp hd with ⟨hd1, -⟩
  rcases List.append_eq_nil.mp hd1 with ⟨-, hd2⟩
  cases hd2

/-- The uni_courses blob is never empty. -/
theorem serializeCourses_ne_empty (xs : List Course) :
    serializeCourses xs ≠ "" :=
  serializeWith_ne_empty encCourse xs

/-- The uni_notes blob is never empty. -/
theorem serializeNotes_ne_empty (xs : List Note) : serializeNotes xs ≠ "" :=
  serializeWith_ne_empty encNote xs

/-- The uni_materials blob is never empty. -/
theorem serializeMaterials_ne_empty (xs : List Material) :
    serializeMaterials xs ≠ "" :=
  serializeWith_ne_empty encMaterial xs

/-- The uni_courses blob round-trips. -/
theorem deserializeCourses_serialize (xs : List Course) :
    deserializeCourses (serializeCourses xs) = some xs :=
  deserialize_serialize decCourse encCourse decCourse_enc xs

/-- The uni_notes blob round-trips. -/
theorem deserializeNotes_serialize (xs : List Note) :
    deserializeNotes (serializeNotes xs) = some xs :=
  deserialize_serialize decNote encNote decNote_enc xs

/-- The uni_materials blob round-trips. -/
theorem deserializeMaterials_serialize (xs : List Material) :
    deserializeMaterials (serializeMaterials xs) = some xs :=
  deserialize_serialize decMaterial encMaterial decMaterial_enc xs

/-- C4: saving any store state and loading it back reproduces the same three
collections, field-for-field and in order. -/
theorem load_save_roundtrip (s : StoreState) : load (save s) = Except.ok s := by
  obtain ⟨cs, ns, ms⟩ := s
  have h1 := serializeCourses_ne_empty cs
  have h2 := serializeNotes_ne_empty ns
  have h3 := serializeMaterials_ne_empty ms
  simp only [load, save, loadKey, h1, h2, h3, if_false,
    deserializeCourses_serialize, deserializeNotes_serialize,
    deserializeMaterials_serialize]

/-- C5 counterexample: an empty-string blob under uni_courses is present and
malformed (its parse fails), yet load succeeds with the empty collection
instead of propagating the failure, because the code's truthiness guard
treats the empty string like an absent key. -/
theorem load_empty_blob_cex :
    deserializeCourses "" = none ∧
      load ⟨some "", none, none⟩ = Except.ok ⟨[], [], []⟩ :=
  ⟨rfl, rfl⟩

/-- Success of one key load is exactly the spec-side per-key description. -/
theorem loadKey_ok_iff (dec : String → Option (List α)) (v : Option String)
    (xs : List α) :
    loadKey dec v = Except.ok xs ↔ KeyParsedOk dec v xs := by
  cases v with
  | none => simp [loadKey, KeyParsedOk, eq_comm]
  | some b =>
    by_cases hb : b = ""
    · subst hb
      simp [loadKey, KeyParsedOk, eq_comm]
    · cases hdec : dec b with
      | none => simp [loadKey, KeyParsedOk, hb, hdec]
      | some ys => simp [loadKey, KeyParsedOk, hb, hdec, eq_comm]

/-- Failure of one key load is exactly a present, non-empty, malformed
blob. -/
theorem loadKey_error_iff (dec : String → Option (List α)) (v : Option String) :
    loadKey dec v = Except.error () ↔ KeyParseFails dec v := by
  cases v with
  | none => simp [loadKey, KeyParseFails]
  | some b =>
    by_cases hb : b = ""
    · subst hb
      simp [loadKey, KeyParseFails]
    · cases hdec : dec b with
      | none => simp [loadKey, KeyParseFails, hb, hdec]
      | some ys => simp [loadKey, KeyParseFails, hb, hdec]

/-- C5 amended: load succeeds with a state exactly when each of the three
keys loads per the per-key rule — absent key or empty blob gives the empty
collection, otherwise the blob must parse — and fails exactly when some key
holds a present, non-empty, malformed blob.  Each key is judged only by its
own blob. -/
theorem load_spec (st : Storage) :
    (∀ S : StoreState, load st = Except.ok S ↔
      (KeyParsedOk deserializeCourses st.uni_courses S.courses ∧
        KeyParsedOk deserializeNotes st.uni_notes S.notes ∧
        KeyParsedOk deserializeMaterials st.uni_materials S.materials)) ∧
    (load st = Except.error () ↔
      (KeyParseFails deserializeCourses st.uni_courses ∨
        KeyParseFails deserializeNotes st.uni_notes ∨
        KeyParseFails deserializeMaterials st.uni_materials)) := by
  simp only [← loadKey_ok_iff, ← loadKey_error_iff]
  rw [load]
  cases hc : loadKey deserializeCourses st.uni_courses with
  | error e =>
    cases e
    constructor
    · intro S
      simp [hc]
    · simp [hc]
  | ok cs =>
    cases hn : loadKey deserializeNotes st.uni_notes with
    | error e =>
      cases e
      constructor
      · intro S
        simp [hc, hn]
      · simp [hc, hn]
    | ok ns =>
      cases hm : loadKey deserializeMaterials st.uni_materials with
      | error e =>
        cases e
        constructor
        · intro S
          simp [hc, hn, hm]
        · simp [hc, hn, hm]
      | ok ms =>
        constructor
        · intro S
          obtain ⟨Sc, Sn, Sm⟩ := S
          simp only [hc, hn, hm, Except.ok.injEq, StoreState.mk.injEq]
        · simp [hc, hn, hm]

/-- C5 witness: all keys absent loads the empty store; a malformed non-empty
blob under uni_notes makes the load fail. -/
theorem load_spec_witness :
    load ⟨none, none, none⟩ = Except.ok ⟨[], [], []⟩ ∧
      load ⟨none, some "x", none⟩ = Except.error () := by
  constructor
  · exact ((load_spec ⟨none, none, none⟩).1 ⟨[], [], []⟩).mpr
      ⟨Or.inl ⟨rfl, rfl⟩, Or.inl ⟨rfl, rfl⟩, Or.inl ⟨rfl, rfl⟩⟩
  · exact (load_spec ⟨none, some "x", none⟩).2.mpr
      (Or.inr (Or.inl ⟨"x", rfl, by decide, by decide⟩))

/-! ### Identifier uniqueness under operation sequences -/

/-- The defined slots after any moveNote call form a subpermutation of the
original note sequence (a swap permutes it; the out-of-range blanking drops
one entry). -/
theorem moveNote_filterMap_subperm (cid : String) (notes : List Note)
    (ri : Int) (dir : Direction) :
    (moveNote cid notes ri dir).filterMap id <+~ notes := by
  cases hT : moveTargetIndex cid notes ri dir with
  | none =>
    rw [moveNote_target_none hT, filterMap_id_map_some]
  | some t =>
    cases hG : moveGlobalIndex cid notes ri with
    | none =>
      rw [moveNote_global_none hG hT]
      exact (filterMap_id_set_none notes t).subperm
    | some g =>
      obtain ⟨ng, hng, -⟩ := moveGlobalIndex_entity hG
      obtain ⟨nt, hnt, -⟩ := moveTargetIndex_entity hT
      have hne := moveIndexes_ne hG hT
      rw [moveNote_swap_eq hG hT hng hnt, filterMap_id_map_some]
      exact (set_set_swap_perm notes g t ng nt hne hng hnt).subperm

/-- A subpermutation of a collection with nodup ids has nodup ids. -/
theorem nodup_map_of_subperm {α β : Type _} (f : α → β) {l₁ l₂ : List α}
    (h : l₁ <+~ l₂) (hn : (l₂.map f).Nodup) : (l₁.map f).Nodup := by
  obtain ⟨l, hperm, hsub⟩ := h
  exact ((hperm.map f).nodup_iff).mp (List.Nodup.sublist (hsub.map f) hn)

/-- One fresh operation preserves identifier uniqueness. -/
theorem applyOp_unique (s : StoreState) (op : Op) (hu : UniqueIds s)
    (hf : OpFresh s op) : UniqueIds (applyOp s op) := by
  obtain ⟨hc, hn, hm⟩ := hu
  cases op with
  | addCourse id name description now =>
    refine ⟨?_, hn, hm⟩
    simp only [applyOp, addCourse, List.map_append, List.map_cons,
      List.map_nil]
    rw [List.nodup_append]
    refine ⟨hc, List.nodup_singleton _, ?_⟩
    intro x hx hx1
    obtain ⟨c, hcmem, rfl⟩ := List.mem_map.mp hx
    simp only [List.mem_singleton] at hx1
    exact hf c hcmem hx1
  | addNote id courseId title content now =>
    refine ⟨hc, ?_, hm⟩
    simp only [applyOp, addNote, List.map_append, List.map_cons, List.map_nil]
    rw [List.nodup_append]
    refine ⟨hn, List.nodup_singleton _, ?_⟩
    intro x hx hx1
    obtain ⟨n, hnmem, rfl⟩ := List.mem_map.mp hx
    simp only [List.mem_singleton] at hx1
    exact hf n hnmem hx1
  | addMaterial id courseId noteId name url type now =>
    refine ⟨hc, hn, ?_⟩
    simp only [applyOp, addMaterial, List.map_append, List.map_cons,
      List.map_nil]
    rw [List.nodup_append]
    refine ⟨hm, List.nodup_singleton _, ?_⟩
    intro x hx hx1
    obtain ⟨m, hmmem, rfl⟩ := List.mem_map.mp hx
    simp only [List.mem_singleton] at hx1
    exact hf m hmmem hx1
  | updateNote id title content now =>
    refine ⟨hc, ?_, hm⟩
    have hids : (updateNote s.notes id title content now).map Note.id =
        s.notes.map Note.id := by
      rw [updateNote, List.map_map]
      exact List.map_congr_left fun n _ => by
        by_cases h : n.id = id <;> simp [h]
    simpa only [applyOp, hids] using hn
  | deleteCourse id =>
    exact ⟨List.Nodup.sublist ((List.filter_sublist _).map Course.id) hc,
      List.Nodup.sublist ((List.filter_sublist _).map Note.id) hn,
      List.Nodup.sublist ((List.filter_sublist _).map Material.id) hm⟩
  | deleteNote id =>
    exact ⟨hc, List.Nodup.sublist ((List.filter_sublist _).map Note.id) hn, hm⟩
  | deleteMaterial id =>
    exact ⟨hc, hn,
      List.Nodup.sublist ((List.filter_sublist _).map Material.id) hm⟩
  | moveNote cid ri dir =>
    exact ⟨hc,
      nodup_map_of_subperm Note.id (moveNote_filterMap_subperm cid s.notes ri dir) hn,
      hm⟩

/-- C6: starting from a state with unique ids, any finite sequence of store
operations whose generated ids are fresh (the guarantee of the random id
generator) keeps ids unique within each of the three collections. -/
theorem ops_unique_ids (ops : List Op) (s : StoreState) (hu : UniqueIds s)
    (hf : FreshRun s ops) : UniqueIds (applyOps s ops) := by
  induction ops generalizing s with
  | nil => exact hu
  | cons op ops ih =>
    obtain ⟨hop, hrest⟩ := hf
    exact ih (applyOp s op) (applyOp_unique s op hu hop) hrest

/-- C6 witness: a concrete run of adds, an update, a move and a cascade delete
from the empty store keeps ids unique. -/
theorem ops_unique_ids_witness :
    UniqueIds (applyOps ⟨[], [], []⟩
      [Op.addCourse "A" "Biology 101" "" 1,
        Op.addNote "n1" "A" "Cells" "body" 2,
        Op.addNote "n2" "A" "Genes" "body" 3,
        Op.addCourse "B" "Chemistry" "" 4,
        Op.addMaterial "m1" "A" (some "n1") "Syllabus" "/s" MType.file 5,
        Op.updateNote "n1" "Cells2" "body2" 6,
        Op.moveNote "A" 1 Direction.up,
        Op.deleteCourse "B"]) :=
  ops_unique_ids _ ⟨[], [], []⟩ (by decide) (by decide)

end Unisphere
